import Mathlib

/-!
Verification of the playlist vibe-analysis core of the mateusabreucn
projeto_spotify repository: identity normalization, playlist-to-catalog
record linkage, eligible vibe categories, diversity metrics,
representative-track ranking, and the pre-clustering validation check.

The definitions below are shallow embeddings of the Python sources
src/config.py, src/data_processing.py, src/vibes_model.py and app.py.
Pandas NaN values are modelled as `none`, numeric feature values as
rationals, and the float computations of the diversity metrics as real
numbers.  The theorems settle the specification claims.
-/

namespace ProjetoSpotify

/-! ### Embedding of src/config.py -/

/-- The fixed ordered list of the 9 audio feature column names
(FEATURE_COLS in src/config.py).  Feature vectors below are indexed by
`Fin 9` in this order. -/
def FEATURE_COLS : List String :=
  ["danceability", "energy", "acousticness", "instrumentalness",
   "liveness", "valence", "tempo", "speechiness", "loudness"]

/-- The canonical ordered bank of vibe category names
(VIBE_LABELS_EXTENDED in src/config.py). -/
def VIBE_LABELS_EXTENDED : List String :=
  ["Party / Upbeat", "Chill / Acoustic", "Happy / Feel-good",
   "Dark / Intense", "Instrumental / Dreamy", "Romantic / Smooth",
   "Energetic / Aggressive", "Melancholic / Sad"]

/-- Eligible vibe labels for a requested cluster count (get_vibe_labels in
src/config.py): clamp the count into [3, 8] and take that many labels from
the front of the canonical list.  The Python int argument is modelled as
an integer. -/
def get_vibe_labels (n_clusters : Int) : List String :=
  VIBE_LABELS_EXTENDED.take (max 3 (min 8 n_clusters)).toNat

/-! ### Embedding of normalize_artists_string (src/data_processing.py) -/

/-- Model of Python str.strip on a character list: drop whitespace from
both ends. -/
def trimChars (cs : List Char) : List Char :=
  ((cs.dropWhile Char.isWhitespace).reverse.dropWhile Char.isWhitespace).reverse

/-- Model of Python str.lower on a character list (ASCII lowering). -/
def lowerChars (cs : List Char) : List Char :=
  cs.map Char.toLower

/-- Model of Python str.split with a one-character separator: splitting
the empty text yields one empty part, and separators at the ends yield
empty parts. -/
def splitChar (sep : Char) : List Char → List (List Char)
  | [] => [[]]
  | c :: rest =>
    let r := splitChar sep rest
    if c == sep then [] :: r
    else
      match r with
      | [] => [[c]]
      | h :: t => (c :: h) :: t

/-- Character-level model of the text clean-up of
normalize_artists_string lines 15-18: delete each of the four bracket and
quote characters (replacement by the empty string), then replace each
semicolon by a comma. -/
def cleanArtistChars (cs : List Char) : List Char :=
  (cs.filter fun c => !(c == '[' || c == ']' || c == '\'' || c == '"')).map
    fun c => if c == ';' then ',' else c

/-- normalize_artists_string (src/data_processing.py lines 10-20).  A null
(NaN) input is modelled as `none` and yields the empty string.  Otherwise
the cleaned text is split on commas, each part that is non-empty after
trimming is trimmed and lower-cased, and the parts are rejoined with
", ". -/
def normalize_artists_string (s : Option String) : String :=
  match s with
  | none => ""
  | some s0 =>
    let parts := splitChar ',' (cleanArtistChars s0.toList)
    String.intercalate ", "
      ((parts.filter fun p => !(trimChars p).isEmpty).map
        fun p => String.mk (lowerChars (trimChars p)))

/-- Rendering of the specification sentence behind claim C9, following its
words literally: strip the bracket and quote characters, treat semicolon
as comma, split on comma, trim and lower-case each part, and rejoin with
", ".  The sentence does not mention dropping parts that are empty after
trimming. -/
def normalizeArtistsClaimC9 (s : Option String) : String :=
  match s with
  | none => ""
  | some s0 =>
    let parts := splitChar ',' (cleanArtistChars s0.toList)
    String.intercalate ", " (parts.map fun p => String.mk (lowerChars (trimChars p)))

/-- The amended description of the artist-key normalizer: as the claim,
plus the rule that parts which are empty after trimming are dropped before
rejoining. -/
def normalizeArtistsAmendedC9 (s : Option String) : String :=
  match s with
  | none => ""
  | some s0 =>
    let parts := splitChar ',' (cleanArtistChars s0.toList)
    String.intercalate ", "
      ((parts.filter fun p => !(trimChars p).isEmpty).map
        fun p => String.mk (lowerChars (trimChars p)))

/-! ### Embedding of merge_playlist_with_local (src/data_processing.py) -/

/-- A 9-entry audio feature vector in FEATURE_COLS order; a missing (NaN)
value is `none`. -/
abbrev OptFeatures : Type := Fin 9 → Option ℚ

/-- A catalog row as produced by load_local_dataset: the three normalized
key columns, the raw name and artists columns, and the feature columns
(the columns kept at src/data_processing.py line 53). -/
structure CatalogRow where
  sid_norm : String
  name_norm : String
  artist_norm : String
  name : String
  artists : String
  features : OptFeatures

/-- One playlist entry: the parallel inputs tracks / names / artists of
merge_playlist_with_local, bundled per track.  The id of a track may be
null. -/
structure PlaylistTrack where
  id : Option String
  name : String
  artists : String

instance : Inhabited PlaylistTrack := ⟨⟨none, "", ""⟩⟩

/-- A row of the playlist frame pl built at src/data_processing.py lines
81-89, together with its positional index in the playlist. -/
structure PlRow where
  pidx : Nat
  sid_norm : Option String
  name_norm : String
  artist_norm : String
  track_name : String
  artists_raw : String

/-- A row of the merged frame: the playlist columns, the catalog columns
name and artists brought in by the id merge (`none` when the id stage
found no catalog match), and the feature columns. -/
structure MergedRow where
  pidx : Nat
  sid_norm : Option String
  name_norm : String
  artist_norm : String
  track_name : String
  artists_raw : String
  name : Option String
  artists : Option String
  features : OptFeatures

instance : DecidableEq CatalogRow := fun a b =>
  decidable_of_iff
    (a.sid_norm = b.sid_norm ∧ a.name_norm = b.name_norm ∧
     a.artist_norm = b.artist_norm ∧ a.name = b.name ∧
     a.artists = b.artists ∧ a.features = b.features)
    (by cases a; cases b; simp [CatalogRow.mk.injEq])

instance : DecidableEq MergedRow := fun a b =>
  decidable_of_iff
    (a.pidx = b.pidx ∧ a.sid_norm = b.sid_norm ∧ a.name_norm = b.name_norm ∧
     a.artist_norm = b.artist_norm ∧ a.track_name = b.track_name ∧
     a.artists_raw = b.artists_raw ∧ a.name = b.name ∧
     a.artists = b.artists ∧ a.features = b.features)
    (by cases a; cases b; simp [MergedRow.mk.injEq])

/-- The playlist row for track t at position i: sid_norm is the raw
optional id, name_norm is the trimmed lower-cased name, artist_norm is the
normalized artists string, and the raw name and artists are carried as
track_name and artists_raw. -/
def mkPlRow (i : Nat) (t : PlaylistTrack) : PlRow :=
  { pidx := i
    sid_norm := t.id
    name_norm := String.mk (lowerChars (trimChars t.name.toList))
    artist_norm := normalize_artists_string (some t.artists)
    track_name := t.name
    artists_raw := t.artists }

/-- Builds the playlist rows with their positional indices starting at i. -/
def plRowsAux (i : Nat) : List PlaylistTrack → List PlRow
  | [] => []
  | t :: ts => mkPlRow i t :: plRowsAux (i + 1) ts

/-- The playlist frame pl of merge_playlist_with_local lines 81-89. -/
def plRows (tracks : List PlaylistTrack) : List PlRow :=
  plRowsAux 0 tracks

/-- The merged row for a playlist row p joined by id to the catalog row r:
the playlist columns are kept, the catalog name and artists columns come
along, and the feature columns are taken from r. -/
def idMatchRow (p : PlRow) (r : CatalogRow) : MergedRow :=
  { pidx := p.pidx, sid_norm := p.sid_norm, name_norm := p.name_norm,
    artist_norm := p.artist_norm, track_name := p.track_name,
    artists_raw := p.artists_raw,
    name := some r.name, artists := some r.artists, features := r.features }

/-- The merged row for a playlist row without catalog id match: every
catalog column, features included, is missing. -/
def idMissRow (p : PlRow) : MergedRow :=
  { pidx := p.pidx, sid_norm := p.sid_norm, name_norm := p.name_norm,
    artist_norm := p.artist_norm, track_name := p.track_name,
    artists_raw := p.artists_raw,
    name := none, artists := none, features := fun _ => none }

/-- The rows which the left join on sid_norm (line 92) produces for one
playlist row: one row per catalog row with the same id (a non-unique
catalog id yields several rows), or a single all-missing row when no
catalog row matches.  A null playlist id matches no catalog row, since the
catalog ids are strings. -/
def idMatches (cat : List CatalogRow) (p : PlRow) : List CatalogRow :=
  match p.sid_norm with
  | some s => cat.filter fun r => r.sid_norm == s
  | none => []

/-- The merged rows produced for one playlist row by the id join. -/
def idRowsFor (cat : List CatalogRow) (p : PlRow) : List MergedRow :=
  if (idMatches cat p).isEmpty then [idMissRow p]
  else (idMatches cat p).map (idMatchRow p)

/-- The first merge of merge_playlist_with_local: the left join of the
playlist rows to the catalog on sid_norm (line 92). -/
def idMerge (tracks : List PlaylistTrack) (cat : List CatalogRow) : List MergedRow :=
  (plRows tracks).flatMap (idRowsFor cat)

/-- True when at least one of the nine feature columns of a merged row is
missing; this is the miss mask of line 95 and the dropna condition of
line 110. -/
def hasMissingFeature (row : MergedRow) : Bool :=
  (List.finRange 9).any fun j => (row.features j).isNone

/-- The catalog view deduplicated on (name_norm, artist_norm) with the
first occurrence winning (drop_duplicates at line 98), written with an
accumulator of the keys already seen. -/
def dropDupAux (seen : List (String × String)) : List CatalogRow → List CatalogRow
  | [] => []
  | r :: rs =>
    if seen.any fun key => key.1 == r.name_norm && key.2 == r.artist_norm then
      dropDupAux seen rs
    else
      r :: dropDupAux ((r.name_norm, r.artist_norm) :: seen) rs

/-- drop_duplicates(subset=["name_norm", "artist_norm"]) of line 98. -/
def dropDupByNameArtist (cat : List CatalogRow) : List CatalogRow :=
  dropDupAux [] cat

/-- The fallback stage applied to one merged row (lines 94-107): a row
still missing some feature value is looked up in the deduplicated catalog
view by (name_norm, artist_norm) and all nine feature columns are
overwritten with the values of the match, or left missing when there is no
match; a row with complete features is untouched.  Only the feature
columns are updated, never the name or artists columns. -/
def fallbackRow (aux : List CatalogRow) (row : MergedRow) : MergedRow :=
  if hasMissingFeature row then
    match aux.find? fun r => r.name_norm == row.name_norm && r.artist_norm == row.artist_norm with
    | some r => { row with features := r.features }
    | none => { row with features := fun _ => none }
  else row

/-- The fallback stage over the whole merged frame. -/
def fallbackUpdate (cat : List CatalogRow) (rows : List MergedRow) : List MergedRow :=
  rows.map (fallbackRow (dropDupByNameArtist cat))

/-- merge_playlist_with_local (src/data_processing.py lines 57-111): the
id merge, then the fallback by name and artist, then only the rows with
all nine features present are kept (line 110). -/
def merge_playlist_with_local (tracks : List PlaylistTrack) (cat : List CatalogRow) :
    List MergedRow :=
  (fallbackUpdate cat (idMerge tracks cat)).filter fun row => !hasMissingFeature row

/-- The identity columns which analyze_playlist_vibes exposes per track in
the final output frame (src/vibes_model.py line 267 selects the columns
track_name and artists of the merged frame). -/
def outputIdentity (row : MergedRow) : String × Option String :=
  (row.track_name, row.artists)

/-! ### Embedding of vibe_metrics (src/vibes_model.py lines 136-150) -/

/-- The counts of np.unique over the vibe labels: one count per distinct
label (the order of the distinct labels is irrelevant to the metrics). -/
def uniqueCounts (labels : List String) : List Nat :=
  labels.dedup.map fun v => labels.count v

/-- vibe_metrics (src/vibes_model.py lines 136-150), returning the pair
(dominant_share, shannon).  The source computes with float64; the
embedding uses real numbers, on which the sign facts proved below agree
with the float computation.  Note that the source divides the raw entropy
by log2(n_vibes + 1e-12) + 1e-12 with no special case for a single
distinct vibe. -/
noncomputable def vibe_metrics (labels : List String) : ℝ × ℝ :=
  if labels.length = 0 then (0, 0)
  else
    let n : ℝ := labels.length
    let p : List ℝ := (uniqueCounts labels).map fun c => (c : ℝ) / n
    let dominant : ℝ := p.foldl max 0
    let shannonRaw : ℝ := -((p.map fun q => q * Real.logb 2 (q + 1e-12)).sum)
    let nVibes : ℝ := (uniqueCounts labels).length
    (dominant, shannonRaw / (Real.logb 2 (nVibes + 1e-12) + 1e-12))

/-! ### Embedding of top_tracks_by_cluster (src/vibes_model.py lines
153-207)

Distances are carried as squared Euclidean norms over the rationals; the
ordering by np.linalg.norm equals the ordering by the squared norm, and
the theorems below also state the ordering of the real square roots, i.e.
of the Euclidean distances themselves.  The np.argsort call (default
kind, which numpy does not document as stable) is determinized in the
embedding as the sort of the index list by the lexicographic order
(distance, index); the order of equal distances is therefore a modelling
choice, not a guarantee of the source, and no theorem below about the
source relies on it. -/

/-- A standardized feature vector. -/
abbrev Vec9 : Type := Fin 9 → ℚ

/-- A row of the df_out frame handed to top_tracks_by_cluster: identity
columns, feature columns, and the cluster and vibe labels. -/
structure OutRow where
  track_name : String
  artists : Option String
  features : Vec9
  cluster : Nat
  vibe : String

instance : DecidableEq OutRow := fun a b =>
  decidable_of_iff
    (a.track_name = b.track_name ∧ a.artists = b.artists ∧
     a.features = b.features ∧ a.cluster = b.cluster ∧ a.vibe = b.vibe)
    (by cases a; cases b; simp [OutRow.mk.injEq])

/-- A row of a representative-track table: the 1-based rank column
inserted at line 202 and the selected identity and feature columns. -/
structure RankedRow where
  rank : Nat
  track_name : String
  artists : Option String
  features : Vec9

instance : DecidableEq RankedRow := fun a b =>
  decidable_of_iff
    (a.rank = b.rank ∧ a.track_name = b.track_name ∧ a.artists = b.artists ∧
     a.features = b.features)
    (by cases a; cases b; simp [RankedRow.mk.injEq])

/-- The default row used for out-of-range positional access. -/
def defaultOutRow : OutRow :=
  { track_name := "", artists := none, features := fun _ => 0, cluster := 0, vibe := "" }

/-- The zero vector, the default for out-of-range positional access. -/
def zeroVec : Vec9 := fun _ => 0

/-- The row positions of the tracks of cluster c (np.where at line 186). -/
def clusterIdx (labels : List Nat) (c : Nat) : List Nat :=
  (List.range labels.length).filter fun i => labels.getD i 0 == c

/-- The centroid of cluster c: the per-column mean of the standardized
vectors of its member rows (line 178). -/
def centroidOf (scaled : List Vec9) (labels : List Nat) (c : Nat) : Vec9 :=
  let idx := clusterIdx labels c
  fun j => ((idx.map fun i => scaled.getD i zeroVec j).sum) / (idx.length : ℚ)

/-- The sorted distinct cluster ids (np.unique at line 176; also the
iteration order of the loop at line 184). -/
def uniqueClusters (labels : List Nat) : List Nat :=
  labels.dedup.insertionSort (· ≤ ·)

/-- The centroid array of lines 177-179, indexed positionally. -/
def centroidsArr (scaled : List Vec9) (labels : List Nat) : List Vec9 :=
  (uniqueClusters labels).map (centroidOf scaled labels)

/-- Squared Euclidean distance of two standardized vectors. -/
def sqDist (u v : Vec9) : ℚ :=
  ∑ j : Fin 9, (u j - v j) ^ 2

/-- The distances of the member rows of cluster c to centroids[c]
(line 195; note the positional indexing of the centroid array by the
cluster id itself), as squared norms. -/
def distsFor (scaled : List Vec9) (labels : List Nat) (c : Nat) : List ℚ :=
  (clusterIdx labels c).map fun i =>
    sqDist (scaled.getD i zeroVec) ((centroidsArr scaled labels).getD c zeroVec)

/-- The sort key of the argsort model: position i comes before position j
when its distance is smaller, or the distances are equal and i ≤ j. -/
def distLe (d : List ℚ) (i j : Nat) : Prop :=
  d.getD i 0 < d.getD j 0 ∨ (d.getD i 0 = d.getD j 0 ∧ i ≤ j)

instance (d : List ℚ) : DecidableRel (distLe d) := fun i j => by
  unfold distLe; infer_instance

instance (d : List ℚ) : IsTotal Nat (distLe d) := ⟨fun i j => by
  unfold distLe
  rcases lt_trichotomy (d.getD i 0) (d.getD j 0) with h | h | h
  · exact Or.inl (Or.inl h)
  · rcases Nat.le_total i j with hij | hij
    · exact Or.inl (Or.inr ⟨h, hij⟩)
    · exact Or.inr (Or.inr ⟨h.symm, hij⟩)
  · exact Or.inr (Or.inl h)⟩

instance (d : List ℚ) : IsTrans Nat (distLe d) := ⟨fun i j l hij hjl => by
  unfold distLe at hij hjl ⊢
  rcases hij with h1 | h1 <;> rcases hjl with h2 | h2
  · exact Or.inl (h1.trans h2)
  · exact Or.inl (h2.1 ▸ h1)
  · exact Or.inl (h1.1 ▸ h2)
  · exact Or.inr ⟨h1.1.trans h2.1, h1.2.trans h2.2⟩⟩

/-- Determinization of np.argsort over the distance list: the positions
0..n-1 sorted by (distance, position).  The source calls np.argsort with
the default kind (quicksort, i.e. introsort), for which numpy gives no
stability guarantee: the relative order this model assigns to equal
distances is the embedding's deterministic choice and must not be read as
a property of the program. -/
def argsortLex (d : List ℚ) : List Nat :=
  (List.range d.length).insertionSort (distLe d)

/-- The selected positions into the cluster index list: the argsort order
truncated to min k (cluster size) (line 198). -/
def orderFor (scaled : List Vec9) (labels : List Nat) (c k : Nat) : List Nat :=
  (argsortLex (distsFor scaled labels c)).take (min k (clusterIdx labels c).length)

/-- The representative-track table of cluster c: the selected rows of
df_out with the 1-based rank column inserted (lines 201-202). -/
def topForCluster (df_out : List OutRow) (scaled : List Vec9) (labels : List Nat)
    (c k : Nat) : List RankedRow :=
  let idx := clusterIdx labels c
  let sel := (orderFor scaled labels c k).map fun o => df_out.getD (idx.getD o 0) defaultOutRow
  ((List.range' 1 sel.length).zip sel).map fun pr =>
    { rank := pr.1, track_name := pr.2.track_name, artists := pr.2.artists,
      features := pr.2.features }

/-- The vibe of a cluster id according to
dict(zip(df_out["cluster"], df_out["vibe"])) with the default of line 204:
the vibe of the last df_out row of that cluster, or the fallback name
"Cluster c". -/
def clusterVibe (df_out : List OutRow) (c : Nat) : String :=
  match df_out.reverse.find? fun row => row.cluster == c with
  | some row => row.vibe
  | none => "Cluster " ++ toString c

/-- Python dict assignment result[key] = v on an association list: an
existing entry for the key is replaced in place, otherwise the pair is
appended. -/
def dictInsert (d : List (String × List RankedRow)) (key : String) (v : List RankedRow) :
    List (String × List RankedRow) :=
  if d.any fun pr => pr.1 == key then
    d.map fun pr => if pr.1 == key then (key, v) else pr
  else d ++ [(key, v)]

/-- Lookup in the association-list model of the Python result dict. -/
def dictFind (d : List (String × List RankedRow)) (key : String) :
    Option (List RankedRow) :=
  (d.find? fun pr => pr.1 == key).map fun pr => pr.2

/-- The loop body of the top_tracks_by_cluster loop (lines 184-205): a
cluster with no members is skipped, otherwise its representative table is
written into the result dict under the vibe name of the cluster. -/
def ttStep (df_out : List OutRow) (scaled : List Vec9) (labels : List Nat)
    (k : Nat) (result : List (String × List RankedRow)) (c : Nat) :
    List (String × List RankedRow) :=
  if (clusterIdx labels c).isEmpty then result
  else dictInsert result (clusterVibe df_out c) (topForCluster df_out scaled labels c k)

/-- top_tracks_by_cluster (src/vibes_model.py lines 153-207): iterate the
sorted distinct cluster ids and store each cluster representative table in
a dict keyed by the vibe name of the cluster.  The empty-cluster guard of
line 188 is kept even though distinct ids always have members. -/
def top_tracks_by_cluster (df_out : List OutRow) (scaled : List Vec9) (labels : List Nat)
    (k : Nat) : List (String × List RankedRow) :=
  (uniqueClusters labels).foldl
    (fun result c =>
      if (clusterIdx labels c).isEmpty then result
      else dictInsert result (clusterVibe df_out c) (topForCluster df_out scaled labels c k))
    []

/-! ### Embedding of the pre-clustering validation of app.py (lines
296-314) -/

/-- The data of the insufficient-matches error message raised at app.py
lines 300-309: the matched track count, the requested cluster count, and
the recommended maximum cluster count. -/
structure InsufficientMatchesError where
  found : Nat
  requested : Nat
  maxRecommended : Nat
deriving DecidableEq

/-- The validation step of show_analysis_section (app.py lines 296-314):
when fewer tracks were matched than clusters requested, the error carrying
max(1, matched_count) is raised; otherwise the analysis continues and the
clustering computation, abstracted as the argument runClustering, is
invoked. -/
def show_analysis_validation {α : Type} (matched_count n_clusters : Nat)
    (runClustering : Unit → α) : Except InsufficientMatchesError α :=
  if matched_count < n_clusters then
    Except.error
      { found := matched_count, requested := n_clusters,
        maxRecommended := max 1 matched_count }
  else Except.ok (runClustering ())

/-! ### Concrete example inputs used by witnesses and counterexamples -/

/-- A playlist track with a known catalog id. -/
def exTrack : PlaylistTrack :=
  { id := some "A", name := "Song", artists := "The Band" }

/-- A complete catalog row carrying the id of exTrack but a different
artists string. -/
def exCatRowA : CatalogRow :=
  { sid_norm := "A", name_norm := "song", artist_norm := "the band",
    name := "Song", artists := "The Band ft. X", features := fun _ => some 1 }

/-- A second complete catalog row with the same id as exCatRowA. -/
def exCatRowA2 : CatalogRow :=
  { sid_norm := "A", name_norm := "other song", artist_norm := "other band",
    name := "Other Song", artists := "Other Band", features := fun _ => some 2 }

/-- A third catalog row matching exTrack by normalized name and artist
but not by id, with different feature values. -/
def exCatRowB : CatalogRow :=
  { sid_norm := "Z", name_norm := "song", artist_norm := "the band",
    name := "Song", artists := "The Band", features := fun _ => some 5 }

/-- A standardized vector with all coordinates 0. -/
def ceVec0 : Vec9 := fun _ => 0

/-- A standardized vector with all coordinates 1. -/
def ceVec1 : Vec9 := fun _ => 1

/-- A df_out row in cluster 0; both example clusters carry the same
vibe. -/
def ceRow0 : OutRow :=
  { track_name := "t0", artists := none, features := ceVec0,
    cluster := 0, vibe := "Party / Upbeat" }

/-- A df_out row in cluster 1 with the same vibe as ceRow0. -/
def ceRow1 : OutRow :=
  { track_name := "t1", artists := none, features := ceVec1,
    cluster := 1, vibe := "Party / Upbeat" }

/-- The example df_out frame with two clusters sharing one vibe. -/
def ceDf : List OutRow := [ceRow0, ceRow1]

/-- The example standardized matrix. -/
def ceScaled : List Vec9 := [ceVec0, ceVec1]

/-- The example cluster labels. -/
def ceLabels : List Nat := [0, 1]

/-- Seventeen identical standardized vectors: the standardized matrix of a
cluster made of duplicate linked tracks. -/
def tieScaled : List Vec9 := List.replicate 17 ceVec0

/-- Seventeen tracks all in cluster 0. -/
def tieLabels : List Nat := List.replicate 17 0

/-! ### Theorems -/

/-- Every row of plRowsAux comes from a playlist position. -/
theorem mem_plRowsAux {ts : List PlaylistTrack} {i : Nat} {p : PlRow}
    (h : p ∈ plRowsAux i ts) :
    ∃ j, j < ts.length ∧ p = mkPlRow (i + j) (ts.getD j default) := by
  induction ts generalizing i with
  | nil => simp [plRowsAux] at h
  | cons t ts ih =>
    simp only [plRowsAux, List.mem_cons] at h
    rcases h with h | h
    · exact ⟨0, by simp, by simpa using h⟩
    · obtain ⟨j, hj, hp⟩ := ih h
      refine ⟨j + 1, by simpa using hj, ?_⟩
      have harith : i + 1 + j = i + (j + 1) := by omega
      rw [harith] at hp
      simpa using hp

/-- Every playlist position yields a row of plRowsAux. -/
theorem mkPlRow_mem_plRowsAux {ts : List PlaylistTrack} {j : Nat} (i : Nat)
    (hj : j < ts.length) :
    mkPlRow (i + j) (ts.getD j default) ∈ plRowsAux i ts := by
  induction ts generalizing i j with
  | nil => simp at hj
  | cons t ts ih =>
    cases j with
    | zero => simp [plRowsAux]
    | succ j =>
      have hmem := ih (i := i + 1) (j := j) (by simpa using hj)
      simp only [plRowsAux, List.mem_cons]
      right
      have harith : i + (j + 1) = i + 1 + j := by omega
      rw [harith]
      simpa using hmem

/-- Every row which the id join produces for a playlist row keeps that
row's positional index, track name and raw artists string. -/
theorem idRowsFor_fields {cat : List CatalogRow} {p : PlRow} {row : MergedRow}
    (h : row ∈ idRowsFor cat p) :
    row.pidx = p.pidx ∧ row.track_name = p.track_name ∧
    row.artists_raw = p.artists_raw := by
  unfold idRowsFor at h
  by_cases he : (idMatches cat p).isEmpty
  · rw [if_pos he] at h
    simp only [List.mem_singleton] at h
    subst h
    exact ⟨rfl, rfl, rfl⟩
  · rw [if_neg he] at h
    obtain ⟨r, _, rfl⟩ := List.mem_map.mp h
    exact ⟨rfl, rfl, rfl⟩

/-- The fallback stage changes only the feature columns of a row. -/
theorem fallbackRow_fields (aux : List CatalogRow) (row : MergedRow) :
    (fallbackRow aux row).pidx = row.pidx ∧
    (fallbackRow aux row).track_name = row.track_name ∧
    (fallbackRow aux row).artists_raw = row.artists_raw ∧
    (fallbackRow aux row).name = row.name ∧
    (fallbackRow aux row).artists = row.artists := by
  unfold fallbackRow
  by_cases h : hasMissingFeature row
  · rw [if_pos h]
    cases aux.find? fun r =>
        r.name_norm == row.name_norm && r.artist_norm == row.artist_norm with
    | some r => exact ⟨rfl, rfl, rfl, rfl, rfl⟩
    | none => exact ⟨rfl, rfl, rfl, rfl, rfl⟩
  · rw [if_neg h]
    exact ⟨rfl, rfl, rfl, rfl, rfl⟩

/-- A row already complete after the id stage passes the fallback stage
unchanged. -/
theorem fallbackRow_complete {aux : List CatalogRow} {row : MergedRow}
    (h : hasMissingFeature row = false) :
    fallbackRow aux row = row := by
  simp [fallbackRow, h]

/-- C2 amended: the title exposed in the final per-track output is always
the playlist's own supplied name (and the raw playlist artists string is
carried unchanged in the artists_raw column), while the exposed artists
column comes from the catalog side of the join. -/
theorem merge_output_playlist_identity (tracks : List PlaylistTrack)
    (cat : List CatalogRow) (row : MergedRow)
    (h : row ∈ merge_playlist_with_local tracks cat) :
    ∃ j, j < tracks.length ∧ row.pidx = j ∧
      row.track_name = (tracks.getD j default).name ∧
      row.artists_raw = (tracks.getD j default).artists := by
  unfold merge_playlist_with_local fallbackUpdate at h
  have h1 := (List.mem_filter.mp h).1
  obtain ⟨row0, hrow0, rfl⟩ := List.mem_map.mp h1
  obtain ⟨p, hp, hrow⟩ := List.mem_flatMap.mp hrow0
  obtain ⟨j, hj, rfl⟩ := mem_plRowsAux hp
  obtain ⟨h1p, h1t, h1a⟩ := idRowsFor_fields hrow
  obtain ⟨h2p, h2t, h2a, _, _⟩ :=
    fallbackRow_fields (dropDupByNameArtist cat) row0
  refine ⟨j, hj, ?_, ?_, ?_⟩
  · rw [h2p, h1p]; simp [mkPlRow]
  · rw [h2t, h1t]; simp [mkPlRow]
  · rw [h2a, h1a]; simp [mkPlRow]

/-- Witness for C2 at the one-track example playlist. -/
theorem merge_output_playlist_identity_witness :
    idMatchRow (mkPlRow 0 exTrack) exCatRowA ∈
      merge_playlist_with_local [exTrack] [exCatRowA] ∧
    ∃ j, j < ([exTrack] : List PlaylistTrack).length ∧
      (idMatchRow (mkPlRow 0 exTrack) exCatRowA).pidx = j ∧
      (idMatchRow (mkPlRow 0 exTrack) exCatRowA).track_name =
        (([exTrack] : List PlaylistTrack).getD j default).name ∧
      (idMatchRow (mkPlRow 0 exTrack) exCatRowA).artists_raw =
        (([exTrack] : List PlaylistTrack).getD j default).artists :=
  ⟨by decide, merge_output_playlist_identity [exTrack] [exCatRowA] _ (by decide)⟩

/-- C2 counterexample: for a playlist track matched by id against a
catalog row whose artists string differs from the playlist's, the only
output row exposes the catalog artists string, not the artists string
supplied by the playlist. -/
theorem merge_output_artists_counterexample :
    ∃ row, merge_playlist_with_local [exTrack] [exCatRowA] = [row] ∧
      outputIdentity row = ("Song", some "The Band ft. X") ∧
      exTrack.artists = "The Band" ∧
      row.artists ≠ some exTrack.artists := by
  refine ⟨idMatchRow (mkPlRow 0 exTrack) exCatRowA, ?_, ?_, ?_, ?_⟩ <;> decide

/-- C3: a playlist track whose id matches a catalog row with all nine
features present yields an output row carrying exactly that catalog row's
features, for every catalog — in particular regardless of any
title-and-artist match elsewhere in the catalog, since the fallback stage
leaves rows completed by the id stage untouched. -/
theorem merge_exact_id_features (tracks : List PlaylistTrack)
    (cat : List CatalogRow) (i : Nat) (s : String) (r : CatalogRow)
    (hi : i < tracks.length)
    (hid : (tracks.getD i default).id = some s)
    (hr : r ∈ cat) (hrs : r.sid_norm = s)
    (hcomp : ∀ j : Fin 9, (r.features j).isSome) :
    ∃ row, row ∈ merge_playlist_with_local tracks cat ∧
      row.pidx = i ∧ row.features = r.features := by
  have hp : mkPlRow i (tracks.getD i default) ∈ plRows tracks := by
    have := mkPlRow_mem_plRowsAux 0 hi
    simpa [plRows] using this
  set p := mkPlRow i (tracks.getD i default) with hpdef
  have hmatches : idMatches cat p = cat.filter fun r0 => r0.sid_norm == s := by
    unfold idMatches
    have : p.sid_norm = some s := hid
    rw [this]
  have hrm : r ∈ idMatches cat p := by
    rw [hmatches]
    exact List.mem_filter.mpr ⟨hr, by simp [hrs]⟩
  have hne : idMatches cat p ≠ [] := List.ne_nil_of_mem hrm
  have hrow0 : idMatchRow p r ∈ idRowsFor cat p := by
    unfold idRowsFor
    rw [if_neg (by simpa [List.isEmpty_iff] using hne)]
    exact List.mem_map_of_mem _ hrm
  have hmerge : idMatchRow p r ∈ idMerge tracks cat :=
    List.mem_flatMap.mpr ⟨p, hp, hrow0⟩
  have hmiss : hasMissingFeature (idMatchRow p r) = false := by
    simp only [hasMissingFeature, List.any_eq_false]
    intro j _
    have := hcomp j
    simp only [idMatchRow]
    cases hx : r.features j with
    | none => rw [hx] at this; simp at this
    | some v => simp
  refine ⟨idMatchRow p r, ?_, rfl, rfl⟩
  unfold merge_playlist_with_local fallbackUpdate
  refine List.mem_filter.mpr ⟨?_, by simp [hmiss]⟩
  refine List.mem_map.mpr ⟨idMatchRow p r, hmerge, ?_⟩
  exact fallbackRow_complete hmiss

/-- Witness for C3: the catalog also contains a row matching the track by
normalized title and artist with different features, and the output still
carries the features of the id match. -/
theorem merge_exact_id_features_witness :
    (0 < ([exTrack] : List PlaylistTrack).length ∧
      (([exTrack] : List PlaylistTrack).getD 0 default).id = some "A" ∧
      exCatRowA ∈ [exCatRowB, exCatRowA] ∧ exCatRowA.sid_norm = "A" ∧
      ∀ j : Fin 9, (exCatRowA.features j).isSome) ∧
    ∃ row, row ∈ merge_playlist_with_local [exTrack] [exCatRowB, exCatRowA] ∧
      row.pidx = 0 ∧ row.features = exCatRowA.features :=
  ⟨by refine ⟨by decide, by decide, by decide, by decide, by decide⟩,
   merge_exact_id_features [exTrack] [exCatRowB, exCatRowA] 0 "A" exCatRowA
     (by decide) (by decide) (by decide) (by decide) (by decide)⟩

/-- Every row produced by the id join keeps the positional index of its
playlist row. -/
theorem idRowsFor_pidx {cat : List CatalogRow} {p : PlRow} {row : MergedRow}
    (h : row ∈ idRowsFor cat p) : row.pidx = p.pidx :=
  (idRowsFor_fields h).1

/-- The id join produces at least one row per playlist row. -/
theorem idRowsFor_length_pos (cat : List CatalogRow) (p : PlRow) :
    1 ≤ (idRowsFor cat p).length := by
  unfold idRowsFor
  by_cases he : (idMatches cat p).isEmpty
  · rw [if_pos he]; simp
  · rw [if_neg he]
    have : idMatches cat p ≠ [] := by simpa [List.isEmpty_iff] using he
    have hlen : 0 < (idMatches cat p).length := List.length_pos.mpr this
    simpa using hlen

/-- Counting the id-join rows of playlist position base + j. -/
theorem countP_plRowsAux_flatMap (cat : List CatalogRow) :
    ∀ (ts : List PlaylistTrack) (base j : Nat), j < ts.length →
    (((plRowsAux base ts).flatMap (idRowsFor cat)).countP
        fun row => row.pidx == base + j) =
      (idRowsFor cat (mkPlRow (base + j) (ts.getD j default))).length := by
  intro ts
  induction ts with
  | nil => intro base j hj; simp at hj
  | cons t ts ih =>
    intro base j hj
    rw [show plRowsAux base (t :: ts) = mkPlRow base t :: plRowsAux (base + 1) ts
      from rfl]
    rw [List.flatMap_cons, List.countP_append]
    cases j with
    | zero =>
      have hhead : ((idRowsFor cat (mkPlRow base t)).countP
          fun row => row.pidx == base + 0) =
          (idRowsFor cat (mkPlRow base t)).length := by
        apply List.countP_eq_length.mpr
        intro row hrow
        have := idRowsFor_pidx hrow
        simp [this, mkPlRow]
      have htail : (((plRowsAux (base + 1) ts).flatMap (idRowsFor cat)).countP
          fun row => row.pidx == base + 0) = 0 := by
        apply List.countP_eq_zero.mpr
        intro row hrow
        obtain ⟨p, hp, hrowp⟩ := List.mem_flatMap.mp hrow
        obtain ⟨j2, _, rfl⟩ := mem_plRowsAux hp
        have := idRowsFor_pidx hrowp
        simp only [this, mkPlRow]
        simp only [beq_iff_eq]
        omega
      rw [hhead, htail]
      simp [List.getD_cons_zero]
    | succ j =>
      have hhead : ((idRowsFor cat (mkPlRow base t)).countP
          fun row => row.pidx == base + (j + 1)) = 0 := by
        apply List.countP_eq_zero.mpr
        intro row hrow
        have := idRowsFor_pidx hrow
        simp only [this, mkPlRow]
        simp only [beq_iff_eq]
        omega
      have harith : base + (j + 1) = base + 1 + j := by omega
      have htail := ih (base + 1) j (by simpa using hj)
      rw [hhead, harith, htail]
      simp [List.getD_cons_succ]

/-- C10: a playlist track whose id matches several catalog rows produces
one id-stage output row per matching catalog row (the left merge key is
not unique), and the id stage keeps at least one row per playlist entry —
the playlist is never deduplicated — so the merged frame can hold more
rows than the playlist. -/
theorem idMerge_one_row_per_catalog_match (tracks : List PlaylistTrack)
    (cat : List CatalogRow) (i : Nat) (s : String)
    (hi : i < tracks.length)
    (hid : (tracks.getD i default).id = some s)
    (hne : (cat.filter fun r => r.sid_norm == s) ≠ []) :
    ((idMerge tracks cat).countP fun row => row.pidx == i) =
      (cat.filter fun r => r.sid_norm == s).length ∧
    tracks.length ≤ (idMerge tracks cat).length := by
  constructor
  · have hcount := countP_plRowsAux_flatMap cat tracks 0 i hi
    simp only [Nat.zero_add] at hcount
    unfold idMerge plRows
    rw [hcount]
    set p := mkPlRow i (tracks.getD i default) with hpdef
    have hmatches : idMatches cat p = cat.filter fun r0 => r0.sid_norm == s := by
      unfold idMatches
      have : p.sid_norm = some s := hid
      rw [this]
    unfold idRowsFor
    rw [hmatches, if_neg (by simpa [List.isEmpty_iff] using hne)]
    simp
  · unfold idMerge plRows
    have : ∀ (ts : List PlaylistTrack) (base : Nat),
        ts.length ≤ ((plRowsAux base ts).flatMap (idRowsFor cat)).length := by
      intro ts
      induction ts with
      | nil => intro base; simp
      | cons t ts ih =>
        intro base
        rw [show plRowsAux base (t :: ts) = mkPlRow base t :: plRowsAux (base + 1) ts
          from rfl]
        rw [List.flatMap_cons, List.length_append]
        have h1 := idRowsFor_length_pos cat (mkPlRow base t)
        have h2 := ih (base + 1)
        simp only [List.length_cons]
        omega
    exact this tracks 0

/-- Witness for C10: one playlist track, two catalog rows with its id; the
id stage produces two rows for the single track, and the final linker
output holds two rows against a one-track playlist. -/
theorem idMerge_one_row_per_catalog_match_witness :
    (0 < ([exTrack] : List PlaylistTrack).length ∧
      (([exTrack] : List PlaylistTrack).getD 0 default).id = some "A" ∧
      (([exCatRowA, exCatRowA2] : List CatalogRow).filter
        fun r => r.sid_norm == "A") ≠ []) ∧
    (((idMerge [exTrack] [exCatRowA, exCatRowA2]).countP
        fun row => row.pidx == 0) =
      (([exCatRowA, exCatRowA2] : List CatalogRow).filter
        fun r => r.sid_norm == "A").length ∧
      ([exTrack] : List PlaylistTrack).length ≤
        (idMerge [exTrack] [exCatRowA, exCatRowA2]).length) ∧
    (merge_playlist_with_local [exTrack] [exCatRowA, exCatRowA2]).length = 2 :=
  ⟨⟨by decide, by decide, by decide⟩,
   idMerge_one_row_per_catalog_match [exTrack] [exCatRowA, exCatRowA2] 0 "A"
     (by decide) (by decide) (by decide),
   by decide⟩

/-- C8: for requested vibe counts n ≤ m, the eligible vibe category list
for n is an initial segment of the canonical ordered category list
VIBE_LABELS_EXTENDED, and every category eligible for n is also eligible
for m: a larger requested cluster count unlocks strictly more categories,
never different ones. -/
theorem get_vibe_labels_initial_and_monotone (n m : Int) (h : n ≤ m) :
    (∃ t, get_vibe_labels n ++ t = VIBE_LABELS_EXTENDED) ∧
    get_vibe_labels n ⊆ get_vibe_labels m := by
  constructor
  · exact ⟨VIBE_LABELS_EXTENDED.drop (max 3 (min 8 n)).toNat,
      List.take_append_drop _ _⟩
  · intro x hx
    unfold get_vibe_labels at hx ⊢
    have hab : (max 3 (min 8 n)).toNat ≤ (max 3 (min 8 m)).toNat :=
      Int.toNat_le_toNat (max_le_max le_rfl (min_le_min le_rfl h))
    have hs : VIBE_LABELS_EXTENDED.take (max 3 (min 8 n)).toNat =
        (VIBE_LABELS_EXTENDED.take (max 3 (min 8 m)).toNat).take
          (max 3 (min 8 n)).toNat := by
      rw [List.take_take, min_eq_left hab]
    rw [hs] at hx
    exact List.take_subset _ _ hx

/-- Witness for C8 at the concrete pair 4 ≤ 6. -/
theorem get_vibe_labels_initial_and_monotone_witness :
    (4 : Int) ≤ 6 ∧
    ((∃ t, get_vibe_labels 4 ++ t = VIBE_LABELS_EXTENDED) ∧
     get_vibe_labels 4 ⊆ get_vibe_labels 6) :=
  ⟨by decide, get_vibe_labels_initial_and_monotone 4 6 (by decide)⟩

/-- C7: whenever the matched track count is lower than the requested
cluster count, the validation step returns the insufficient-matches error
whose recommended maximum cluster count is max 1 matched_count, and it
does so for every possible clustering computation — the clustering is
never invoked. -/
theorem show_analysis_validation_insufficient {α : Type}
    (matched_count n_clusters : Nat) (runClustering : Unit → α)
    (h : matched_count < n_clusters) :
    show_analysis_validation matched_count n_clusters runClustering =
      Except.error
        { found := matched_count, requested := n_clusters,
          maxRecommended := max 1 matched_count } := by
  unfold show_analysis_validation
  rw [if_pos h]

/-- Witness for C7 at the specification scenario: 3 matched tracks, 5
requested clusters, recommended maximum 3. -/
theorem show_analysis_validation_insufficient_witness :
    3 < 5 ∧
    show_analysis_validation 3 5 (fun _ => (0 : Nat)) =
      Except.error { found := 3, requested := 5, maxRecommended := 3 } :=
  ⟨by decide, show_analysis_validation_insufficient 3 5 _ (by decide)⟩

/-- C9 counterexample: on the input "a," the code and the literal claim
description disagree — the code drops the part that is empty after
trimming and returns "a", while the described split-trim-rejoin chain
returns "a, ". -/
theorem normalize_artists_string_claim_counterexample :
    normalize_artists_string (some "a,") ≠ normalizeArtistsClaimC9 (some "a,") ∧
    normalize_artists_string (some "a,") = "a" ∧
    normalizeArtistsClaimC9 (some "a,") = "a, " := by
  refine ⟨?_, ?_, ?_⟩ <;> decide

/-- C9 amended: the artist-key normalizer strips the bracket and quote
characters, treats semicolon as comma, splits on comma, trims and
lower-cases each part, drops the parts that are empty after trimming,
rejoins with ", ", and maps empty or null input to the empty string; it is
a total function, so no input raises an error. -/
theorem normalize_artists_string_amended :
    (∀ s, normalize_artists_string s = normalizeArtistsAmendedC9 s) ∧
    normalize_artists_string none = "" ∧
    normalize_artists_string (some "") = "" :=
  ⟨fun _ => rfl, rfl, by decide⟩

/-- C4: every row of the linker output has all nine feature values
present: tracks unresolved after both join stages are removed by the final
filter and never appear with partial features. -/
theorem merge_output_features_complete (tracks : List PlaylistTrack)
    (cat : List CatalogRow) (row : MergedRow)
    (h : row ∈ merge_playlist_with_local tracks cat) :
    ∀ j : Fin 9, (row.features j).isSome := by
  intro j
  unfold merge_playlist_with_local at h
  have h2 := (List.mem_filter.mp h).2
  simp only [Bool.not_eq_eq_eq_not, Bool.not_true, hasMissingFeature,
    List.any_eq_false] at h2
  have h3 := h2 j (List.mem_finRange j)
  exact Option.isSome_iff_ne_none.mpr (by simpa using h3)

/-- Witness for C4: a one-track playlist resolved by the id stage. -/
theorem merge_output_features_complete_witness :
    idMatchRow (mkPlRow 0 exTrack) exCatRowA ∈
      merge_playlist_with_local [exTrack] [exCatRowA] ∧
    ∀ j : Fin 9, ((idMatchRow (mkPlRow 0 exTrack) exCatRowA).features j).isSome :=
  ⟨by decide, merge_output_features_complete [exTrack] [exCatRowA] _ (by decide)⟩

/-- C1: the single-vibe case of vibe_metrics is not special-cased.  With
exactly one distinct vibe present, the epsilon-smoothed normalization
divides a negative raw value by a tiny positive denominator: the returned
shannon value is negative (about -0.59), hence neither 0 nor inside
[0, 1], while the dominant share is 1. -/
theorem vibe_metrics_single_vibe_shannon_negative :
    (vibe_metrics ["Party / Upbeat", "Party / Upbeat"]).2 < 0 ∧
    (vibe_metrics ["Party / Upbeat", "Party / Upbeat"]).2 ≠ 0 ∧
    (vibe_metrics ["Party / Upbeat", "Party / Upbeat"]).1 = 1 := by
  have hcounts : uniqueCounts ["Party / Upbeat", "Party / Upbeat"] = [2] := by
    decide
  have hlog : 0 < Real.logb 2 (1 + 1e-12) :=
    Real.logb_pos (by norm_num) (by norm_num)
  have heps : (0 : ℝ) < 1e-12 := by norm_num
  have hneg : (vibe_metrics ["Party / Upbeat", "Party / Upbeat"]).2 < 0 := by
    simp only [vibe_metrics, hcounts, List.length_cons, List.length_nil,
      List.map_cons, List.map_nil, List.sum_cons, List.sum_nil,
      List.length_singleton]
    norm_num
    exact div_neg_of_neg_of_pos (by linarith) (by linarith)
  refine ⟨hneg, ne_of_lt hneg, ?_⟩
  simp only [vibe_metrics, hcounts, List.length_cons, List.length_nil,
    List.map_cons, List.map_nil, List.foldl_cons, List.foldl_nil,
    List.length_singleton]
  norm_num

/-- Replacing the entry of a present key puts (key, v) at its position, so
the first entry with that key is (key, v). -/
theorem find?_replace_of_any (key : String) (v : List RankedRow) :
    ∀ d : List (String × List RankedRow), (d.any fun pr => pr.1 == key) = true →
    ((d.map fun pr => if pr.1 == key then (key, v) else pr).find?
        fun pr => pr.1 == key) = some (key, v) := by
  intro d
  induction d with
  | nil => intro h; simp at h
  | cons pr d ih =>
    intro h
    by_cases hp : (pr.1 == key) = true
    · simp only [List.map_cons, if_pos hp]
      rw [List.find?_cons_of_pos _ (by simp)]
    · simp only [List.map_cons, if_neg hp]
      rw [List.find?_cons_of_neg _ (by simpa using hp)]
      apply ih
      simp only [List.any_cons, hp, Bool.false_or] at h
      exact h

/-- Replacing the entry of one key leaves the first entry of a different
key unchanged. -/
theorem find?_replace_of_other (key key2 : String) (v : List RankedRow)
    (hne : key2 ≠ key) :
    ∀ d : List (String × List RankedRow),
    ((d.map fun pr => if pr.1 == key2 then (key2, v) else pr).find?
        fun pr => pr.1 == key) = d.find? fun pr => pr.1 == key := by
  intro d
  induction d with
  | nil => simp
  | cons pr d ih =>
    by_cases hp : (pr.1 == key2) = true
    · simp only [List.map_cons, if_pos hp]
      have hp2 : pr.1 = key2 := by simpa using hp
      have hpk : ¬ ((pr.1 == key) = true) := by simp [hp2, hne]
      have hkv : ¬ ((((key2, v) : String × List RankedRow).1 == key) = true) := by
        simp [hne]
      rw [List.find?_cons_of_neg (p := fun pr => pr.1 == key) (a := (key2, v)) _ hkv,
        List.find?_cons_of_neg (p := fun pr => pr.1 == key) (a := pr) _ hpk]
      exact ih
    · simp only [List.map_cons, if_neg hp]
      by_cases hpk : (pr.1 == key) = true
      · rw [List.find?_cons_of_pos (p := fun pr => pr.1 == key) (a := pr) _ hpk,
          List.find?_cons_of_pos (p := fun pr => pr.1 == key) (a := pr) _ hpk]
      · rw [List.find?_cons_of_neg (p := fun pr => pr.1 == key) (a := pr) _ hpk,
          List.find?_cons_of_neg (p := fun pr => pr.1 == key) (a := pr) _ hpk]
        exact ih

/-- Looking up the key just written into the dict. -/
theorem dictFind_dictInsert_same (d : List (String × List RankedRow))
    (key : String) (v : List RankedRow) :
    dictFind (dictInsert d key v) key = some v := by
  unfold dictInsert dictFind
  by_cases h : (d.any fun pr => pr.1 == key) = true
  · rw [if_pos h, find?_replace_of_any key v d h]
    rfl
  · rw [if_neg h]
    have hnone : (d.find? fun pr => pr.1 == key) = none := by
      rw [List.find?_eq_none]
      intro x hx hx2
      exact h (List.any_eq_true.mpr ⟨x, hx, hx2⟩)
    rw [List.find?_append, hnone]
    simp

/-- Writing one key into the dict leaves the lookup of a different key
unchanged. -/
theorem dictFind_dictInsert_other (d : List (String × List RankedRow))
    (key key2 : String) (v : List RankedRow) (hne : key2 ≠ key) :
    dictFind (dictInsert d key2 v) key = dictFind d key := by
  unfold dictInsert dictFind
  by_cases h : (d.any fun pr => pr.1 == key2) = true
  · rw [if_pos h, find?_replace_of_other key key2 v hne d]
  · rw [if_neg h, List.find?_append]
    cases hf : d.find? fun pr => pr.1 == key with
    | some pr => simp
    | none => simp [hne]

/-- Processing clusters whose vibes all differ from a key preserves the
lookup of that key. -/
theorem foldl_ttStep_preserve (df_out : List OutRow) (scaled : List Vec9)
    (labels : List Nat) (k : Nat) (v : String) :
    ∀ (cs : List Nat) (acc : List (String × List RankedRow)),
    (∀ c ∈ cs, clusterVibe df_out c ≠ v) →
    dictFind (cs.foldl (ttStep df_out scaled labels k) acc) v = dictFind acc v := by
  intro cs
  induction cs with
  | nil => intro acc _; rfl
  | cons c cs ih =>
    intro acc hv
    rw [List.foldl_cons]
    rw [ih _ fun c2 h2 => hv c2 (List.mem_cons_of_mem c h2)]
    unfold ttStep
    by_cases he : (clusterIdx labels c).isEmpty
    · rw [if_pos he]
    · rw [if_neg he]
      exact dictFind_dictInsert_other _ _ _ _ (hv c (List.mem_cons_self c cs))

/-- A cluster membership yields a member position, so the cluster index
list of a present cluster id is never empty. -/
theorem clusterIdx_ne_nil {labels : List Nat} {c : Nat} (hc : c ∈ labels) :
    (clusterIdx labels c).isEmpty = false := by
  obtain ⟨i, hi, hgi⟩ := List.mem_iff_getElem.mp hc
  have hmem : i ∈ clusterIdx labels c := by
    unfold clusterIdx
    refine List.mem_filter.mpr ⟨List.mem_range.mpr hi, ?_⟩
    rw [List.getD_eq_getElem labels 0 hi]
    simp [hgi]
  rcases he : (clusterIdx labels c).isEmpty with _ | _
  · rfl
  · rw [List.isEmpty_iff] at he
    rw [he] at hmem
    simp at hmem

/-- Processing a strictly ascending cluster list on which c is the last
cluster of its vibe ends with the table of c stored under that vibe. -/
theorem foldl_ttStep_last (df_out : List OutRow) (scaled : List Vec9)
    (labels : List Nat) (k : Nat) (c : Nat)
    (hne : (clusterIdx labels c).isEmpty = false) :
    ∀ (cs : List Nat) (acc : List (String × List RankedRow)), c ∈ cs →
    cs.Pairwise (· < ·) →
    (∀ c2 ∈ cs, clusterVibe df_out c2 = clusterVibe df_out c → c2 ≤ c) →
    dictFind (cs.foldl (ttStep df_out scaled labels k) acc) (clusterVibe df_out c) =
      some (topForCluster df_out scaled labels c k) := by
  intro cs
  induction cs with
  | nil => intro acc hc; simp at hc
  | cons c0 cs ih =>
    intro acc hc hpair hmax
    rcases List.mem_cons.mp hc with rfl | hc2
    · rw [List.foldl_cons]
      have hafter : ∀ c2 ∈ cs, clusterVibe df_out c2 ≠ clusterVibe df_out c := by
        intro c2 h2 heq
        have hlt := (List.pairwise_cons.mp hpair).1 c2 h2
        have hle := hmax c2 (List.mem_cons_of_mem _ h2) heq
        omega
      rw [foldl_ttStep_preserve df_out scaled labels k _ cs _ hafter]
      unfold ttStep
      rw [hne]
      simp only [Bool.false_eq_true, if_false]
      exact dictFind_dictInsert_same _ _ _
    · rw [List.foldl_cons]
      exact ih _ hc2 (List.pairwise_cons.mp hpair).2
        fun c2 h2 => hmax c2 (List.mem_cons_of_mem c0 h2)

/-- Membership in the sorted distinct cluster list. -/
theorem mem_uniqueClusters {labels : List Nat} {c : Nat} :
    c ∈ uniqueClusters labels ↔ c ∈ labels := by
  unfold uniqueClusters
  rw [List.mem_insertionSort, List.mem_dedup]

/-- The sorted distinct cluster list is strictly ascending. -/
theorem uniqueClusters_pairwise_lt (labels : List Nat) :
    (uniqueClusters labels).Pairwise (· < ·) := by
  have hsorted : (uniqueClusters labels).Sorted (· ≤ ·) :=
    List.sorted_insertionSort _ _
  have hnodup : (uniqueClusters labels).Nodup :=
    ((List.perm_insertionSort _ _).nodup_iff).mpr (List.nodup_dedup labels)
  exact (hsorted.and hnodup).imp fun h => lt_of_le_of_ne h.1 h.2

/-- C5 counterexample: with two non-empty clusters assigned the same vibe
label, the result of top_tracks_by_cluster holds a single entry; the
representative table of cluster 0 appears nowhere in it, so not every
non-empty cluster contributes its own list. -/
theorem top_tracks_by_cluster_overwrite_counterexample :
    (top_tracks_by_cluster ceDf ceScaled ceLabels 5).length = 1 ∧
    ¬ (∀ c ∈ ceLabels, ∃ entry ∈ top_tracks_by_cluster ceDf ceScaled ceLabels 5,
        entry.2 = topForCluster ceDf ceScaled ceLabels c 5) := by
  constructor
  · decide
  · decide

/-- C5 amended: every non-empty cluster computes its representative-track
table, but the result dict is keyed by vibe name: the table stored under a
vibe is the one of the largest cluster id carrying that vibe, so when two
clusters share a vibe label the earlier cluster's table is overwritten and
absent from the result. -/
theorem top_tracks_by_cluster_keyed_by_vibe (df_out : List OutRow)
    (scaled : List Vec9) (labels : List Nat) (k : Nat) (c : Nat)
    (hc : c ∈ labels)
    (hmax : ∀ c2 ∈ labels, clusterVibe df_out c2 = clusterVibe df_out c → c2 ≤ c) :
    dictFind (top_tracks_by_cluster df_out scaled labels k)
        (clusterVibe df_out c) =
      some (topForCluster df_out scaled labels c k) := by
  unfold top_tracks_by_cluster
  have hfold : (uniqueClusters labels).foldl
      (fun result c2 =>
        if (clusterIdx labels c2).isEmpty then result
        else dictInsert result (clusterVibe df_out c2)
          (topForCluster df_out scaled labels c2 k)) [] =
      (uniqueClusters labels).foldl (ttStep df_out scaled labels k) [] := rfl
  rw [hfold]
  exact foldl_ttStep_last df_out scaled labels k c (clusterIdx_ne_nil hc)
    (uniqueClusters labels) [] (mem_uniqueClusters.mpr hc)
    (uniqueClusters_pairwise_lt labels)
    fun c2 h2 => hmax c2 (mem_uniqueClusters.mp h2)

/-- Witness for C5 at the two-cluster shared-vibe example: the table kept
under the shared vibe is the one of cluster 1, the larger id. -/
theorem top_tracks_by_cluster_keyed_by_vibe_witness :
    (1 ∈ ceLabels ∧
      ∀ c2 ∈ ceLabels, clusterVibe ceDf c2 = clusterVibe ceDf 1 → c2 ≤ 1) ∧
    dictFind (top_tracks_by_cluster ceDf ceScaled ceLabels 5)
        (clusterVibe ceDf 1) =
      some (topForCluster ceDf ceScaled ceLabels 1 5) :=
  ⟨⟨by decide, by decide⟩,
   top_tracks_by_cluster_keyed_by_vibe ceDf ceScaled ceLabels 5 1
     (by decide) (by decide)⟩

/-- The selected argsort order has exactly min k (cluster size) entries. -/
theorem orderFor_length (scaled : List Vec9) (labels : List Nat) (c k : Nat) :
    (orderFor scaled labels c k).length = min k (clusterIdx labels c).length := by
  unfold orderFor
  rw [List.length_take]
  have h1 : (argsortLex (distsFor scaled labels c)).length =
      (clusterIdx labels c).length := by
    unfold argsortLex
    rw [List.length_insertionSort, List.length_range]
    unfold distsFor
    rw [List.length_map]
  rw [h1]
  omega

/-- When every cluster label is below the number of distinct labels, the
sorted distinct cluster ids are exactly 0, ..., n-1. -/
theorem uniqueClusters_eq_range {labels : List Nat}
    (hcont : ∀ l ∈ labels, l < labels.dedup.length) :
    uniqueClusters labels = List.range labels.dedup.length := by
  have hnodup : (uniqueClusters labels).Nodup :=
    ((List.perm_insertionSort _ _).nodup_iff).mpr (List.nodup_dedup labels)
  have hsub : uniqueClusters labels ⊆ List.range labels.dedup.length := by
    intro x hx
    rw [List.mem_range]
    exact hcont x (mem_uniqueClusters.mp hx)
  have hlen : (uniqueClusters labels).length = labels.dedup.length := by
    unfold uniqueClusters
    rw [List.length_insertionSort]
  have hperm : List.Perm (uniqueClusters labels) (List.range labels.dedup.length) :=
    (List.subperm_of_subset hnodup hsub).perm_of_length_le
      (by rw [hlen, List.length_range])
  exact List.eq_of_perm_of_sorted hperm (List.sorted_insertionSort _ _)
    (List.sorted_le_range _)

/-- Under contiguous labels, the positional centroid access
centroids[cluster_id] of line 195 retrieves the centroid of that very
cluster. -/
theorem centroidsArr_getD {scaled : List Vec9} {labels : List Nat} {c : Nat}
    (hc : c ∈ labels) (hcont : ∀ l ∈ labels, l < labels.dedup.length) :
    (centroidsArr scaled labels).getD c zeroVec = centroidOf scaled labels c := by
  unfold centroidsArr
  rw [uniqueClusters_eq_range hcont]
  have hlt : c < labels.dedup.length := hcont c hc
  have hlen : c < ((List.range labels.dedup.length).map
      (centroidOf scaled labels)).length := by
    rw [List.length_map, List.length_range]
    exact hlt
  rw [List.getD_eq_getElem _ _ hlen, List.getElem_map, List.getElem_range]

/-- Properties of the embedded representative selector that are
independent of the tie rule of the sort — every correct argsort output
satisfies them: the table of a cluster has exactly min k (cluster size)
rows, its rank column is 1, 2, ..., the stored squared centroid distances
are non-decreasing along the table (equivalently, their square roots, the
Euclidean distances, are non-decreasing), and under contiguous labels the
positional centroid access of line 195 retrieves the centroid of the
cluster itself.  The order among exactly equal distances is deliberately
not stated: the source leaves it to the default numpy argsort kind, which
is not documented as stable. -/
theorem topForCluster_model_guarantees (df_out : List OutRow) (scaled : List Vec9)
    (labels : List Nat) (c k : Nat) (hc : c ∈ labels)
    (hcont : ∀ l ∈ labels, l < labels.dedup.length) :
    (topForCluster df_out scaled labels c k).length =
      min k (clusterIdx labels c).length ∧
    (topForCluster df_out scaled labels c k).map (fun t => t.rank) =
      List.range' 1 (min k (clusterIdx labels c).length) ∧
    (centroidsArr scaled labels).getD c zeroVec = centroidOf scaled labels c ∧
    ((orderFor scaled labels c k).map
        fun o => (distsFor scaled labels c).getD o 0).Pairwise
      (fun a b : ℚ => Real.sqrt (a : ℝ) ≤ Real.sqrt (b : ℝ)) := by
  have hfull : (argsortLex (distsFor scaled labels c)).Pairwise
      (distLe (distsFor scaled labels c)) :=
    List.sorted_insertionSort _ _
  have hsorted : (orderFor scaled labels c k).Pairwise
      (distLe (distsFor scaled labels c)) := by
    unfold orderFor
    exact List.Pairwise.sublist (List.take_sublist _ _) hfull
  have hlen : (topForCluster df_out scaled labels c k).length =
      min k (clusterIdx labels c).length := by
    simp only [topForCluster, List.length_map, List.length_zip,
      List.length_range', orderFor_length]
    omega
  have hrank : (topForCluster df_out scaled labels c k).map (fun t => t.rank) =
      List.range' 1 (min k (clusterIdx labels c).length) := by
    simp only [topForCluster, List.map_map]
    have hcomp : ((fun t : RankedRow => t.rank) ∘ fun pr : Nat × OutRow =>
        ({rank := pr.1, track_name := pr.2.track_name, artists := pr.2.artists,
          features := pr.2.features} : RankedRow)) = Prod.fst := rfl
    rw [hcomp, List.map_fst_zip]
    · rw [List.length_map, orderFor_length]
    · rw [List.length_range']
  have hsqrt : ((orderFor scaled labels c k).map
      fun o => (distsFor scaled labels c).getD o 0).Pairwise
      (fun a b : ℚ => Real.sqrt (a : ℝ) ≤ Real.sqrt (b : ℝ)) := by
    refine hsorted.map _ fun a b h => ?_
    have hle : (distsFor scaled labels c).getD a 0 ≤
        (distsFor scaled labels c).getD b 0 := by
      unfold distLe at h
      rcases h with h | h
      · exact le_of_lt h
      · exact le_of_eq h.1
    exact Real.sqrt_le_sqrt (by exact_mod_cast hle)
  exact ⟨hlen, hrank, centroidsArr_getD hc hcont, hsqrt⟩

/-- C6: for a cluster whose members all carry the same standardized
vector — duplicate linked tracks, as at the failing input of seventeen
copies of one track — the centroid coincides with that vector and every
member sits at exactly distance 0 from it: the whole selection order is
one big tie, decided solely by the tie rule of np.argsort.  The source
calls np.argsort with the default quicksort kind, which numpy does not
document as stable, so the required break of these ties by original track
order is not guaranteed by the program. -/
theorem distsFor_all_ties_for_duplicate_tracks (scaled : List Vec9)
    (labels : List Nat) (c : Nat) (v : Vec9) (hc : c ∈ labels)
    (hcont : ∀ l ∈ labels, l < labels.dedup.length)
    (hdup : ∀ i ∈ clusterIdx labels c, scaled.getD i zeroVec = v) :
    distsFor scaled labels c = List.replicate (clusterIdx labels c).length 0 := by
  have hnnil : clusterIdx labels c ≠ [] := by
    intro h
    have hne := clusterIdx_ne_nil hc
    rw [h] at hne
    simp at hne
  have hlenpos : 0 < (clusterIdx labels c).length := List.length_pos.mpr hnnil
  have hcent : centroidOf scaled labels c = v := by
    funext j
    simp only [centroidOf]
    have hmap : (clusterIdx labels c).map (fun i => scaled.getD i zeroVec j) =
        List.replicate (clusterIdx labels c).length (v j) := by
      refine List.eq_replicate_iff.mpr ⟨List.length_map _ _, ?_⟩
      intro b hb
      obtain ⟨i, hi, rfl⟩ := List.mem_map.mp hb
      rw [hdup i hi]
    rw [hmap, List.sum_replicate, nsmul_eq_mul, mul_div_cancel_left₀]
    exact Nat.cast_ne_zero.mpr (Nat.pos_iff_ne_zero.mp hlenpos)
  unfold distsFor
  rw [centroidsArr_getD hc hcont, hcent]
  refine List.eq_replicate_iff.mpr ⟨List.length_map _ _, ?_⟩
  intro b hb
  obtain ⟨i, hi, rfl⟩ := List.mem_map.mp hb
  rw [hdup i hi]
  simp [sqDist, sub_self]

/-- Witness for C6 at the named failing input: seventeen duplicate tracks
in one cluster, all seventeen distances exactly 0 — seventeen-way tie,
beyond the small-array insertion-sort regime of numpy introsort. -/
theorem distsFor_all_ties_for_duplicate_tracks_witness :
    (0 ∈ tieLabels ∧ (∀ l ∈ tieLabels, l < tieLabels.dedup.length) ∧
      (∀ i ∈ clusterIdx tieLabels 0, tieScaled.getD i zeroVec = ceVec0) ∧
      (clusterIdx tieLabels 0).length = 17) ∧
    distsFor tieScaled tieLabels 0 =
      List.replicate (clusterIdx tieLabels 0).length 0 :=
  ⟨⟨by decide, by decide, by decide, by decide⟩,
   distsFor_all_ties_for_duplicate_tracks tieScaled tieLabels 0 ceVec0
     (by decide) (by decide) (by decide)⟩

end ProjetoSpotify
